import Mathlib

/-!
Verification development for the JsonTalkiePlayer timed dispatch engine.

The definitions below are shallow embeddings of the C++ source
(JsonTalkiePlayer.cpp and its header): byte strings become `List Nat`
(each entry a `uint8_t` value), machine integers become `Nat`/`Int` with
explicit `% 2 ^ w` or `&&&` masks where the code masks, `double`
quantities become `ℚ`, and fallible code returns `Option`/`Except`.
Loops over an index are embedded as structural recursion on a fuel
argument that starts at the loop bound; the loop's own exit test
(`i < len`) is kept verbatim, the fuel only certifies termination.
-/

namespace JsonTalkiePlayer

/-! ## Wire codec: `calculate_checksum`

The C++ function first preprocesses the input bytes linearly: whenever
the four preceding bytes are `"c":` (34, 99, 34, 58) and the masking
flag `at_c0` is off, it emits a single ASCII `0` (48) in place of the
current byte and turns the flag on; while the flag is on, ASCII digits
are dropped and the first non-digit clears the flag and passes through.
It then XOR-folds the derived bytes into 16-bit big-endian chunks.
-/

/-- Loop body of the preprocessing pass of `calculate_checksum`
(the `for (size_t i = 0; i < len; ++i)` loop building `data_bytes`).
`fuel` starts at `bytes.length`, `i` at 0, `at_c0` at `false`. -/
def deriveGo (bytes : List Nat) : Nat → Nat → Bool → List Nat
  | 0, _, _ => []
  | fuel + 1, i, at_c0 =>
    if i < bytes.length then
      if at_c0 = false ∧ 3 < i ∧ bytes.getD (i - 3) 0 = 99 ∧ bytes.getD (i - 1) 0 = 58
          ∧ bytes.getD (i - 4) 0 = 34 ∧ bytes.getD (i - 2) 0 = 34 then
        48 :: deriveGo bytes fuel (i + 1) true
      else if at_c0 then
        if bytes.getD i 0 < 48 ∨ 57 < bytes.getD i 0 then
          bytes.getD i 0 :: deriveGo bytes fuel (i + 1) false
        else
          deriveGo bytes fuel (i + 1) true
      else
        bytes.getD i 0 :: deriveGo bytes fuel (i + 1) at_c0
    else []

/-- Derived byte sequence (`data_bytes` with final length `data_bytes_i`)
over which the checksum of `calculate_checksum` is computed. -/
def checksum_derive (data : List Nat) : List Nat :=
  deriveGo data data.length 0 false

/-- Loop body of the XOR fold of `calculate_checksum`
(the `for (size_t i = 0; i < len; i += 2)` loop). -/
def checksumFoldGo (db : List Nat) : Nat → Nat → Nat → Nat
  | 0, _, checksum => checksum
  | fuel + 1, i, checksum =>
    if i < db.length then
      let chunk := (db.getD i 0) <<< 8
      let chunk := if i + 1 < db.length then chunk ||| db.getD (i + 1) 0 else chunk
      checksumFoldGo db fuel (i + 2) (checksum ^^^ chunk)
    else checksum

/-- Embedding of `calculate_checksum`: preprocess the bytes, XOR-fold the
derived sequence in 16-bit big-endian chunks, return the low 16 bits
(the code's `& 0xFFFF`). -/
def calculate_checksum (data : List Nat) : Nat :=
  checksumFoldGo (checksum_derive data) (checksum_derive data).length 0 0 &&& 0xFFFF

/-! ### The claim's derivation rule (C3), written from the spec's words -/

/-- Decides whether a byte value is an ASCII digit. -/
def isDigitByte (b : Nat) : Bool := decide (48 ≤ b ∧ b ≤ 57)

/-- Modelled from the claim's words: locate the first position `i`
whose four preceding bytes are the pattern quote, letter c, quote,
colon; returns the index of the byte immediately following the colon. -/
def findCQuadGo (bytes : List Nat) : Nat → Nat → Option Nat
  | 0, _ => none
  | fuel + 1, i =>
    if i < bytes.length then
      if bytes.getD (i - 4) 0 = 34 ∧ bytes.getD (i - 3) 0 = 99
          ∧ bytes.getD (i - 2) 0 = 34 ∧ bytes.getD (i - 1) 0 = 58 then
        some i
      else findCQuadGo bytes fuel (i + 1)
    else none

/-- Derivation rule exactly as claim C3 states it: find the substring
pattern; when the byte immediately following the colon begins a run of
ASCII digits, replace that entire run by a single `0` byte; at most one
such masking occurs; all other bytes pass through unchanged. -/
def deriveClaimSpec (bytes : List Nat) : List Nat :=
  match findCQuadGo bytes bytes.length 4 with
  | none => bytes
  | some j =>
    if isDigitByte (bytes.getD j 0) then
      bytes.take j ++ 48 :: (bytes.drop j).dropWhile isDigitByte
    else bytes

/-! ### The amended derivation rule (C3), a window-carrying rescan -/

/-- Amended derivation rule, written as structural recursion carrying the
window of the four previously scanned original bytes (`w4` the oldest,
`w1` the byte just before the current one; `none` when the position does
not exist). At a position whose window is quote, c, quote, colon and
whose flag is off, the current byte is replaced by `0` (a digit or not)
and the flag turns on; digits are then dropped until a non-digit clears
the flag; everything else passes through. The masking can recur. -/
def amendGo : Option Nat → Option Nat → Option Nat → Option Nat → Bool → List Nat → List Nat
  | _, _, _, _, _, [] => []
  | w4, w3, w2, w1, at_c0, b :: rest =>
    if at_c0 = false ∧ w4 = some 34 ∧ w3 = some 99 ∧ w2 = some 34 ∧ w1 = some 58 then
      48 :: amendGo w3 w2 w1 (some b) true rest
    else if at_c0 then
      if b < 48 ∨ 57 < b then b :: amendGo w3 w2 w1 (some b) false rest
      else amendGo w3 w2 w1 (some b) true rest
    else b :: amendGo w3 w2 w1 (some b) at_c0 rest

/-- Amended derivation over a whole byte string: scan from the start with
an empty window. -/
def deriveAmended (bytes : List Nat) : List Nat :=
  amendGo none none none none false bytes

/-- Window of previously seen original bytes: the byte `k` positions
before position `i`, when it exists. -/
def win (bytes : List Nat) (i k : Nat) : Option Nat :=
  if k ≤ i then bytes.get? (i - k) else none

theorem deriveGo_eq_amendGo (bytes : List Nat) :
    ∀ fuel i at_c0, bytes.length ≤ fuel + i →
      deriveGo bytes fuel i at_c0 =
        amendGo (win bytes i 4) (win bytes i 3) (win bytes i 2) (win bytes i 1)
          at_c0 (bytes.drop i) := by
  intro fuel
  induction fuel with
  | zero =>
    intro i at_c0 h
    rw [deriveGo, List.drop_eq_nil_of_le (by omega), amendGo]
  | succ fuel ih =>
    intro i at_c0 h
    rw [deriveGo]
    by_cases hi : i < bytes.length
    · have hdrop : bytes.drop i = bytes.getD i 0 :: bytes.drop (i + 1) := by
        rw [List.getD_eq_getElem _ _ hi, List.drop_eq_getElem_cons hi]
      have hw1 : win bytes (i + 1) 1 = some (bytes.getD i 0) := by
        simp [win, List.get?_eq_getElem?, List.getElem?_eq_getElem hi,
          List.getD_eq_getElem _ _ hi]
      have hshift : ∀ k, win bytes (i + 1) (k + 1) = win bytes i k := by
        intro k
        simp only [win]
        by_cases hk : k ≤ i
        · rw [if_pos (by omega), if_pos hk, Nat.add_sub_add_right]
        · rw [if_neg (by omega), if_neg hk]
      have hcond : (at_c0 = false ∧ 3 < i ∧ bytes.getD (i - 3) 0 = 99
            ∧ bytes.getD (i - 1) 0 = 58 ∧ bytes.getD (i - 4) 0 = 34
            ∧ bytes.getD (i - 2) 0 = 34)
          ↔ (at_c0 = false ∧ win bytes i 4 = some 34 ∧ win bytes i 3 = some 99
            ∧ win bytes i 2 = some 34 ∧ win bytes i 1 = some 58) := by
        by_cases h4 : 3 < i
        · have hb : ∀ k, 1 ≤ k → k ≤ 4 →
              win bytes i k = some (bytes.getD (i - k) 0) := by
            intro k hk1 hk4
            have hik : i - k < bytes.length := by omega
            simp [win, (by omega : k ≤ i), List.get?_eq_getElem?,
              List.getElem?_eq_getElem hik, List.getD_eq_getElem _ _ hik]
          rw [hb 4 (by omega) (by omega), hb 3 (by omega) (by omega),
            hb 2 (by omega) (by omega), hb 1 (by omega) (by omega)]
          simp only [Option.some.injEq]
          constructor
          · rintro ⟨hc, _, hB, hD, hA, hC⟩
            exact ⟨hc, hA, hB, hC, hD⟩
          · rintro ⟨hc, hA, hB, hC, hD⟩
            exact ⟨hc, h4, hB, hD, hA, hC⟩
        · have : win bytes i 4 = none := by
            simp [win]; omega
          constructor
          · rintro ⟨_, h3, _⟩; omega
          · rintro ⟨_, hA, _⟩; rw [this] at hA; exact absurd hA (by simp)
      rw [if_pos hi, hdrop, amendGo]
      by_cases hc : at_c0 = false ∧ 3 < i ∧ bytes.getD (i - 3) 0 = 99
          ∧ bytes.getD (i - 1) 0 = 58 ∧ bytes.getD (i - 4) 0 = 34
          ∧ bytes.getD (i - 2) 0 = 34
      · rw [if_pos hc, if_pos (hcond.mp hc)]
        rw [ih (i + 1) true (by omega)]
        rw [hshift 3, hshift 2, hshift 1, hw1]
      · rw [if_neg hc, if_neg (fun hx => hc (hcond.mpr hx))]
        by_cases ha : at_c0
        · rw [if_pos ha, if_pos ha]
          by_cases hd : bytes.getD i 0 < 48 ∨ 57 < bytes.getD i 0
          · rw [if_pos hd, if_pos hd, ih (i + 1) false (by omega),
              hshift 3, hshift 2, hshift 1, hw1]
          · rw [if_neg hd, if_neg hd, ih (i + 1) true (by omega),
              hshift 3, hshift 2, hshift 1, hw1]
        · rw [if_neg ha, if_neg ha, ih (i + 1) at_c0 (by omega),
            hshift 3, hshift 2, hshift 1, hw1]
    · rw [if_neg hi, List.drop_eq_nil_of_le (by omega), amendGo]

/-- C3 (counterexample). The claim's derivation rule disagrees with the
code: on the bytes of the text with a non-digit after the colon the code
still masks that byte to `0` (claim: it passes through), and on a text
with two occurrences of the pattern the code masks both (claim: at most
one masking occurs). Byte values: 34 `"`, 99 `c`, 58 `:`, 120 `x`,
44 `,`, 48-57 digits. -/
theorem c3_mask_counterexample :
    checksum_derive [34, 99, 34, 58, 120] ≠ deriveClaimSpec [34, 99, 34, 58, 120]
    ∧ checksum_derive [34, 99, 34, 58, 49, 44, 34, 99, 34, 58, 50]
      ≠ deriveClaimSpec [34, 99, 34, 58, 49, 44, 34, 99, 34, 58, 50] := by
  decide

/-- C3 (amended): for every input byte string `calculate_checksum`
derives its checksum input by a left-to-right scan; at every position
whose four preceding bytes are quote, c, quote, colon and that is not
already inside a masked digit run, the current byte is replaced by a
single `0` byte whether or not it is a digit, the immediately following
run of ASCII digits is dropped, and the first non-digit passes through
and re-arms the scan, so the masking may occur several times; all other
bytes pass through unchanged to the derived sequence. -/
theorem c3_derive_amended (data : List Nat) :
    checksum_derive data = deriveAmended data := by
  have h := deriveGo_eq_amendGo data data.length 0 false (by omega)
  simpa [checksum_derive, deriveAmended, win] using h

/-! ### The checksum fold (C4) -/

/-- Spec-side fold from claim C4's words: chunk the sequence two bytes at
a time into big-endian 16-bit values (high byte from the even index, low
byte from the following odd index, a final unpaired byte contributing as
high byte with zero low byte) and XOR the chunks together. -/
def xorChunksSpec : List Nat → Nat
  | [] => 0
  | [b] => b <<< 8
  | hb :: lb :: rest => ((hb <<< 8) ||| lb) ^^^ xorChunksSpec rest

theorem checksumFoldGo_eq (db : List Nat) :
    ∀ fuel i cks, db.length ≤ 2 * fuel + i →
      checksumFoldGo db fuel i cks = cks ^^^ xorChunksSpec (db.drop i) := by
  intro fuel
  induction fuel with
  | zero =>
    intro i cks h
    rw [checksumFoldGo, List.drop_eq_nil_of_le (by omega), xorChunksSpec]
    simp
  | succ fuel ih =>
    intro i cks h
    rw [checksumFoldGo]
    by_cases hi : i < db.length
    · rw [if_pos hi]
      by_cases hi1 : i + 1 < db.length
      · have hdrop : db.drop i = db.getD i 0 :: db.getD (i + 1) 0 :: db.drop (i + 2) := by
          rw [List.getD_eq_getElem _ _ hi, List.getD_eq_getElem _ _ hi1,
            List.drop_eq_getElem_cons hi, List.drop_eq_getElem_cons hi1]
        simp only [if_pos hi1]
        rw [ih (i + 2) _ (by omega), hdrop, xorChunksSpec, Nat.xor_assoc]
      · have hlen : db.length = i + 1 := by omega
        have hdrop : db.drop i = [db.getD i 0] := by
          rw [List.getD_eq_getElem _ _ hi, List.drop_eq_getElem_cons hi,
            List.drop_eq_nil_of_le (by omega)]
        simp only [if_neg hi1]
        rw [ih (i + 2) _ (by omega), List.drop_eq_nil_of_le (by omega),
          hdrop]
        simp [xorChunksSpec]
    · rw [if_neg hi, List.drop_eq_nil_of_le (by omega), xorChunksSpec]
      simp

/-- C4 (confirmed): for every input, the checksum equals the XOR of the
derived byte sequence folded into big-endian 16-bit chunks, high byte
from each even index, low byte from the following odd index, a final
unpaired byte contributing as high byte with zero low byte, starting
from a zero accumulator; the result is the low 16 bits. -/
theorem c4_checksum_fold (data : List Nat) :
    calculate_checksum data = xorChunksSpec (checksum_derive data) % 2 ^ 16 := by
  rw [calculate_checksum,
    checksumFoldGo_eq (checksum_derive data) (checksum_derive data).length 0 0 (by omega)]
  have h := Nat.and_pow_two_sub_one_eq_mod
    (0 ^^^ xorChunksSpec (checksum_derive data)) 16
  norm_num at h ⊢
  exact h

/-! ## Device registry and socket state

A `TalkieDevice` is created with a fixed `target_port` and an empty
`target_ip` (the constructor leaves `std::string target_ip` default
constructed; the code tests resolution with `target_ip.empty()`).
The socket owns the name-keyed registry `devices_by_name` and the
counter `total_updates`.
-/

structure TalkieDevice where
  target_port : Int
  target_ip : String
deriving DecidableEq

/-- Embedding of the constructor call
`TalkieDevice(&talkie_socket, target_port, verbose)`: fixed port,
unresolved (empty) target IP. -/
def mkTalkieDevice (target_port : Int) : TalkieDevice :=
  { target_port := target_port, target_ip := "" }

structure TalkieSocketState where
  devices_by_name : List (String × TalkieDevice)
  total_updates : Nat
deriving DecidableEq

/-- Embedding of `TalkieDevice::setTargetIP` applied to the registry
entry stored under `name`. -/
def setTargetIP (m : List (String × TalkieDevice)) (name ip : String) :
    List (String × TalkieDevice) :=
  m.map fun e => if e.1 = name then (e.1, { e.2 with target_ip := ip }) else e

/-- Embedding of `TalkieDevice::sendMessage`: empty messages are
rejected; an unresolved (empty) target IP broadcasts on the device's
port; a resolved IP sends unicast. -/
inductive SendAction where
  | dropped
  | broadcast (port : Int) (msg : List Nat)
  | unicast (ip : String) (port : Int) (msg : List Nat)
deriving DecidableEq

def sendMessage (dev : TalkieDevice) (msg : List Nat) : SendAction :=
  if msg = [] then .dropped
  else if dev.target_ip = "" then .broadcast dev.target_port msg
  else .unicast dev.target_ip dev.target_port msg

/-! ## Peer discovery: `TalkieSocket::updateAddresses`

A received datagram is modelled by the raw byte text it carries plus the
outcomes of the JSON accesses the code performs on it: `parseOk` is
whether `nlohmann::json::parse` succeeds, `fOpt` is `some name` when
`json_message["f"]` converts to a `std::string` (`none` when that
access throws), and `cOpt` is the numeric value carried under `"c"`
(`none` when `uint16_t checksum = json_message["c"]` throws). The code
wraps the whole per-batch loop in one `try`/`catch (std::exception&)`
that logs and returns `false`, so a throwing access aborts the rest of
the batch while keeping the bindings already made.
-/

structure Datagram where
  sender : String
  bytes : List Nat
  parseOk : Bool
  fOpt : Option String
  cOpt : Option Nat
deriving DecidableEq

/-- Embedding of `devices_by_name.find(name)` on the registry (exact
key match of `std::unordered_map::find`). -/
def findByName (m : List (String × TalkieDevice)) (name : String) : Option TalkieDevice :=
  match m with
  | [] => none
  | e :: rest => if name = e.1 then some e.2 else findByName rest name

theorem findByName_setTargetIP_ne (key ip name : String) (hne : name ≠ key) :
    ∀ m : List (String × TalkieDevice),
      findByName (setTargetIP m key ip) name = findByName m name := by
  intro m
  induction m with
  | nil => rfl
  | cons e rest ih =>
    simp only [setTargetIP, List.map_cons]
    by_cases hk : e.1 = key
    · rw [if_pos hk]
      show (if name = e.1 then _ else _) = _
      rw [if_neg (by rw [hk]; exact hne), findByName, if_neg (by rw [hk]; exact hne)]
      exact ih
    · rw [if_neg hk]
      show (if name = e.1 then _ else _) = _
      rw [findByName]
      by_cases hne2 : name = e.1
      · rw [if_pos hne2, if_pos hne2]
      · rw [if_neg hne2, if_neg hne2]
        exact ih

/-- Per-datagram body of the loop in `updateAddresses`. `none` models a
thrown `std::exception` (parse error or JSON access failure); otherwise
the new socket state and whether an address was bound. -/
def processDatagram (s : TalkieSocketState) (d : Datagram) :
    Option (TalkieSocketState × Bool) :=
  if d.parseOk = false then none
  else
    match d.fOpt with
    | none => none
    | some device_name =>
      match findByName s.devices_by_name device_name with
      | none => some (s, false)
      | some dev =>
        if dev.target_ip ≠ "" then some (s, false)
        else
          match d.cOpt with
          | none => none
          | some c =>
            if c % 2 ^ 16 = calculate_checksum d.bytes then
              some ({ devices_by_name := setTargetIP s.devices_by_name device_name d.sender,
                      total_updates := s.total_updates + 1 }, true)
            else some (s, false)

/-- Loop of `updateAddresses` over one received batch: a thrown
exception is caught outside the loop, returning `false` and dropping the
remaining datagrams, but keeping the state mutations already made. -/
def updateLoop (s : TalkieSocketState) (updated : Bool) :
    List Datagram → TalkieSocketState × Bool
  | [] => (s, updated)
  | d :: rest =>
    match processDatagram s d with
    | none => (s, false)
    | some (s', u) => updateLoop s' (updated || u) rest

/-- Embedding of `TalkieSocket::updateAddresses` acting on one batch of
received datagrams. -/
def updateAddresses (s : TalkieSocketState) (msgs : List Datagram) :
    TalkieSocketState × Bool :=
  updateLoop s false msgs

/-- State reached after the first `n` datagrams of a batch; `none` when
an exception was thrown somewhere in that prefix. -/
def runPrefix (s : TalkieSocketState) : List Datagram → Nat → Option TalkieSocketState
  | _, 0 => some s
  | [], _ + 1 => some s
  | d :: rest, n + 1 =>
    match processDatagram s d with
    | none => none
    | some (s', _) => runPrefix s' rest n

/-- Binding condition of the claim, evaluated in a given state: the name
is registered, still unresolved, and the carried checksum (truncated to
16 bits by the `uint16_t` conversion) equals the checksum computed over
the received bytes. -/
def bindReady (s : TalkieSocketState) (f : String) (c : Nat) (bytes : List Nat) : Bool :=
  match findByName s.devices_by_name f with
  | none => false
  | some dev => decide (dev.target_ip = "") && decide (c % 2 ^ 16 = calculate_checksum bytes)

/-- Result of a successful binding: the named entry gets the sender's IP
and `total_updates` is incremented. -/
def bindState (s : TalkieSocketState) (f sender : String) : TalkieSocketState :=
  { devices_by_name := setTargetIP s.devices_by_name f sender,
    total_updates := s.total_updates + 1 }

theorem processDatagram_spec (s : TalkieSocketState) (d : Datagram) (f : String) (c : Nat)
    (hp : d.parseOk = true) (hf : d.fOpt = some f) (hc : d.cOpt = some c) :
    processDatagram s d =
      some (if bindReady s f c d.bytes then (bindState s f d.sender, true) else (s, false)) := by
  unfold processDatagram bindReady
  rw [if_neg (by simp [hp]), hf, hc]
  match hl : findByName s.devices_by_name f with
  | none => simp [hl]
  | some dev =>
    simp only [hl]
    by_cases hip : dev.target_ip = ""
    · rw [if_neg (by simp [hip])]
      by_cases hck : c % 2 ^ 16 = calculate_checksum d.bytes
      · rw [if_pos hck, if_pos (by rw [hip, hck]; simp)]
        rfl
      · rw [if_neg hck,
          if_neg (by simp only [Bool.and_eq_true, decide_eq_true_eq]
                     exact fun hcontra => hck hcontra.2)]
    · rw [if_pos hip, if_neg (by simp [hip])]

theorem processDatagram_preserves (s s' : TalkieSocketState) (d : Datagram) (u : Bool)
    (h : processDatagram s d = some (s', u)) :
    s.total_updates ≤ s'.total_updates
    ∧ ∀ name dev, findByName s.devices_by_name name = some dev → dev.target_ip ≠ "" →
        findByName s'.devices_by_name name = some dev := by
  rw [processDatagram] at h
  split at h
  · exact absurd h (by simp)
  · split at h
    · exact absurd h (by simp)
    · rename_i device_name _
      split at h
      · simp only [Option.some.injEq, Prod.mk.injEq] at h
        refine ⟨by rw [← h.1], ?_⟩
        intro name dev hn _
        rw [← h.1]; exact hn
      · rename_i dev0 hl0
        split at h
        · simp only [Option.some.injEq, Prod.mk.injEq] at h
          refine ⟨by rw [← h.1], ?_⟩
          intro name dev hn _
          rw [← h.1]; exact hn
        · rename_i hip0
          split at h
          · exact absurd h (by simp)
          · split at h
            · simp only [Option.some.injEq, Prod.mk.injEq] at h
              obtain ⟨hs1, _⟩ := h
              constructor
              · rw [← hs1]; exact Nat.le_succ _
              · intro name dev hn hipn
                rw [← hs1]
                show findByName (setTargetIP s.devices_by_name device_name d.sender) name
                  = some dev
                have hne : name ≠ device_name := by
                  intro hcontra
                  rw [hcontra] at hn
                  rw [hn] at hl0
                  simp only [Option.some.injEq] at hl0
                  rw [hl0] at hipn
                  simp only [ne_eq, not_not] at hip0
                  exact hipn (by rw [hip0])
                rw [findByName_setTargetIP_ne device_name d.sender name hne]
                exact hn
            · simp only [Option.some.injEq, Prod.mk.injEq] at h
              refine ⟨by rw [← h.1], ?_⟩
              intro name dev hn _
              rw [← h.1]; exact hn

theorem updateLoop_preserves (msgs : List Datagram) :
    ∀ s updated, s.total_updates ≤ (updateLoop s updated msgs).1.total_updates
      ∧ ∀ name dev, findByName s.devices_by_name name = some dev → dev.target_ip ≠ "" →
          findByName (updateLoop s updated msgs).1.devices_by_name name = some dev := by
  induction msgs with
  | nil => intro s updated; exact ⟨Nat.le_refl _, fun _ _ hn _ => hn⟩
  | cons d rest ih =>
    intro s updated
    rw [updateLoop]
    match hpd : processDatagram s d with
    | none => exact ⟨Nat.le_refl _, fun _ _ hn _ => hn⟩
    | some (s', u) =>
      obtain ⟨h1, h2⟩ := processDatagram_preserves s s' d u hpd
      obtain ⟨h3, h4⟩ := ih s' (updated || u)
      exact ⟨Nat.le_trans h1 h3,
        fun name dev hn hip => h4 name dev (h2 name dev hn hip) hip⟩

/-- C5 (counterexample): batch of two datagrams in which the first one
throws on the `"f"` access (modelled by `fOpt = none`). -/
def cexBad : Datagram :=
  { sender := "10.0.0.1", bytes := [], parseOk := true, fOpt := none, cOpt := none }

/-- C5 (counterexample): well-formed datagram advertising name A with a
correct checksum (`calculate_checksum [1, 2] = 258`). -/
def cexGood : Datagram :=
  { sender := "192.0.2.7", bytes := [1, 2], parseOk := true,
    fOpt := some "A", cOpt := some 258 }

/-- C5 (counterexample): registry with the single unresolved name A. -/
def cexRegistry : TalkieSocketState :=
  { devices_by_name := [("A", mkTalkieDevice 5005)], total_updates := 0 }

/-- C5 (counterexample). The claimed if-and-only-if fails: the second
datagram of the batch satisfies every condition of the claim
(well-formed, name registered and unresolved, carried checksum equal to
the checksum of its bytes), yet no binding is made, because the first
datagram's JSON access failure is caught outside the per-datagram loop
and aborts the rest of the batch. -/
theorem c5_batch_abort_counterexample :
    cexGood.parseOk = true ∧ cexGood.fOpt = some "A" ∧ cexGood.cOpt = some 258
    ∧ (findByName cexRegistry.devices_by_name "A" = some (mkTalkieDevice 5005)
        ∧ (mkTalkieDevice 5005).target_ip = "")
    ∧ 258 % 2 ^ 16 = calculate_checksum cexGood.bytes
    ∧ (updateAddresses cexRegistry [cexBad, cexGood]).1 = cexRegistry := by
  refine ⟨rfl, rfl, rfl, ⟨?_, rfl⟩, by decide, ?_⟩ <;> rfl

/-- C5 (amended): in a discovery tick, a received well-formed datagram
binds the sender IP to the device registered under its advertised name
if and only if the name is registered, still unresolved at the moment
the datagram is processed, and the carried checksum equals the checksum
computed over the received bytes — provided no earlier datagram of the
same batch raised a JSON failure, since such a failure is caught outside
the loop and drops the rest of the batch (keeping earlier bindings).
Moreover an already resolved entry is never re-bound and
`total_updates` (the resolved count) never decreases. -/
theorem c5_update_characterization :
    (∀ (s : TalkieSocketState) (msgs : List Datagram) (i : Nat) (si : TalkieSocketState)
        (d : Datagram) (f : String) (c : Nat),
      runPrefix s msgs i = some si → msgs.get? i = some d →
      d.parseOk = true → d.fOpt = some f → d.cOpt = some c →
      runPrefix s msgs (i + 1) =
        some (if bindReady si f c d.bytes then bindState si f d.sender else si))
    ∧ (∀ (s : TalkieSocketState) (msgs : List Datagram) (name : String) (dev : TalkieDevice),
        findByName s.devices_by_name name = some dev → dev.target_ip ≠ "" →
        findByName (updateAddresses s msgs).1.devices_by_name name = some dev)
    ∧ (∀ (s : TalkieSocketState) (msgs : List Datagram),
        s.total_updates ≤ (updateAddresses s msgs).1.total_updates) := by
  refine ⟨?_, ?_, ?_⟩
  · intro s msgs i
    induction i generalizing s msgs with
    | zero =>
      intro si d f c hrun hget hp hf hc
      match msgs, hget with
      | d' :: rest, hget =>
        have hd : d' = d := by simpa using hget
        have hs : s = si := Option.some.inj hrun
        have hp' : d'.parseOk = true := by rw [hd]; exact hp
        have hf' : d'.fOpt = some f := by rw [hd]; exact hf
        have hc' : d'.cOpt = some c := by rw [hd]; exact hc
        rw [← hs, ← hd, runPrefix, processDatagram_spec s d' f c hp' hf' hc']
        by_cases hb : bindReady s f c d'.bytes
        · simp [hb, runPrefix]
        · simp [hb, runPrefix]
    | succ i ih =>
      intro si d f c hrun hget hp hf hc
      match msgs, hget with
      | e :: rest, hget =>
        simp only [List.get?] at hget
        rw [runPrefix] at hrun
        match hpd : processDatagram s e with
        | none => rw [hpd] at hrun; exact absurd hrun (by simp)
        | some (s', u) =>
          rw [hpd] at hrun
          have := ih s' rest si d f c hrun hget hp hf hc
          show (match processDatagram s e with
            | none => none
            | some (s', _) => runPrefix s' rest (i + 1)) = _
          rw [hpd]
          exact this
  · intro s msgs name dev hn hip
    exact (updateLoop_preserves msgs s false).2 name dev hn hip
  · intro s msgs
    exact (updateLoop_preserves msgs s false).1

/-- C5 (witness): instantiating the characterization on the concrete
one-datagram batch `[cexGood]` from the unresolved registry: the
datagram is well formed and its checksum correct, so processing it
yields the bound state. -/
theorem c5_update_witness :
    runPrefix cexRegistry [cexGood] 1 =
      some (if bindReady cexRegistry "A" 258 cexGood.bytes
        then bindState cexRegistry "A" cexGood.sender else cexRegistry) :=
  c5_update_characterization.1 cexRegistry [cexGood] 0 cexRegistry cexGood "A" 258
    rfl rfl rfl rfl rfl

/-! ## Socket multiplexer receive path: `hasMessages` / `receiveMessages`

The inbound side of the socket is modelled by the queue of datagrams
currently available, each a pair (sender IP, payload text). The socket
is bound and blocking (`initialize` never sets `O_NONBLOCK`), so a
`recvfrom` on an empty queue blocks the caller, modelled by `none`.
-/

/-- Embedding of `TalkieSocket::hasMessages`: zero-timeout `select`
readiness check (the socket is assumed initialized). -/
def hasMessages (queue : List (String × String)) : Bool :=
  !queue.isEmpty

/-- The `do`/`while (hasMessages())` loop of `receiveMessages`: each
iteration performs a blocking `recvfrom` (blocking, `none`, when the
queue is empty), stores the pair, and continues while data remains. -/
def recvLoop : List (String × String) → Option (List (String × String))
  | [] => none
  | m :: rest =>
    if hasMessages rest then (recvLoop rest).map fun l => m :: l
    else some [m]

/-- Embedding of `TalkieSocket::receiveMessages`: a preliminary
`recvfrom` whose result is discarded, then the drain loop. -/
def receiveMessages (queue : List (String × String)) : Option (List (String × String)) :=
  match queue with
  | [] => none
  | _ :: rest => recvLoop rest

/-- C8 (code bug). `receiveMessages` does not return the immediately
available datagrams: the preliminary `recvfrom` before the drain loop
consumes and discards the first available datagram, so a two-datagram
queue yields only the second pair, and with exactly one datagram
available the drain loop's `recvfrom` blocks the caller (`none`)
although `hasMessages` reported data. -/
theorem c8_receive_discards_first :
    receiveMessages [("192.0.2.7", "m1"), ("192.0.2.8", "m2")] = some [("192.0.2.8", "m2")]
    ∧ receiveMessages [("192.0.2.7", "m1")] = none
    ∧ hasMessages [("192.0.2.7", "m1")] = true := by
  refine ⟨rfl, rfl, rfl⟩

/-! ## Pins and the scheduler

A `TalkiePin` is the scheduled unit built during ingestion:
`(time_ms, device pointer, encoded message)` with the auxiliary
`delay_time_ms` defaulting to `-1` and written once after emission.
Devices are referenced by their registry key (name, or channel within
the file iteration that created the per-file channel map); the default
constructed pin has a null device pointer, modelled by `none`. -/

inductive DevKey where
  | byName (name : String)
  | byChannel (file : Nat) (channel : Nat)
deriving DecidableEq

structure TalkiePin where
  time_ms : ℚ
  talkie_device : Option DevKey
  talkie_message : List Nat
  delay_time_ms : ℚ := -1
deriving DecidableEq

instance : Inhabited TalkiePin :=
  ⟨{ time_ms := 0, talkie_device := none, talkie_message := [], delay_time_ms := -1 }⟩

/-! ### Sorting (C6)

`talkieToProcess.sort` is `std::list::sort`, which the C++ standard
guarantees to be stable, with the comparator
`a.getTime() < b.getTime()`; a stable sort under the strict comparator
`<` is the stable sort under the total preorder `time_ms ≤ time_ms`,
embedded with `List.mergeSort` (a stable merge sort). -/

def pinLe (a b : TalkiePin) : Bool := decide (a.time_ms ≤ b.time_ms)

def sortPins (pins : List TalkiePin) : List TalkiePin :=
  pins.mergeSort pinLe

theorem pinLe_trans (a b c : TalkiePin) :
    pinLe a b = true → pinLe b c = true → pinLe a c = true := by
  simp only [pinLe, decide_eq_true_eq]
  exact le_trans

theorem pinLe_total (a b : TalkiePin) : (pinLe a b || pinLe b a) = true := by
  simp only [pinLe, Bool.or_eq_true, decide_eq_true_eq]
  exact le_total a.time_ms b.time_ms

/-- Filter keeping the pins scheduled at one given time. -/
def atTime (t : ℚ) (p : TalkiePin) : Bool := decide (p.time_ms = t)

theorem filter_atTime_pairwise (pins : List TalkiePin) (t : ℚ) :
    (pins.filter (atTime t)).Pairwise fun a b => pinLe a b = true := by
  apply List.pairwise_of_forall_mem_list
  intro a ha b hb
  have ha' : a.time_ms = t := by simpa [atTime] using (List.mem_filter.mp ha).2
  have hb' : b.time_ms = t := by simpa [atTime] using (List.mem_filter.mp hb).2
  simp [pinLe, ha', hb']

/-- C6 (confirmed): after ingestion the to-process pin list is sorted by
`time_ms` ascending — every adjacent pair of the sorted list satisfies
`pin[k].time_ms ≤ pin[k+1].time_ms` — and the sort is stable with no
secondary key: for every time value, the pins scheduled at that time
appear in the sorted list exactly in their insertion order. -/
theorem c6_sort_sorted_stable :
    (∀ (pins : List TalkiePin) (k : Nat) (h : k + 1 < (sortPins pins).length),
      ((sortPins pins).get ⟨k, Nat.lt_of_succ_lt h⟩).time_ms
        ≤ ((sortPins pins).get ⟨k + 1, h⟩).time_ms)
    ∧ (∀ (pins : List TalkiePin) (t : ℚ),
      (sortPins pins).filter (atTime t) = pins.filter (atTime t)) := by
  constructor
  · intro pins k h
    have hs := List.sorted_mergeSort pinLe_trans pinLe_total pins
    have := List.pairwise_iff_get.mp hs ⟨k, Nat.lt_of_succ_lt h⟩ ⟨k + 1, h⟩
      (by simp)
    simpa [pinLe, sortPins] using this
  · intro pins t
    have hsub : List.Sublist (pins.filter (atTime t)) (sortPins pins) :=
      List.sublist_mergeSort pinLe_trans pinLe_total
        (filter_atTime_pairwise pins t) (List.filter_sublist pins)
    have hsub2 : List.Sublist (pins.filter (atTime t)) ((sortPins pins).filter (atTime t)) := by
      have := hsub.filter (atTime t)
      rwa [List.filter_filter, (by funext a; simp : (fun a => atTime t a && atTime t a)
        = atTime t)] at this
    have hperm : ((sortPins pins).filter (atTime t)).Perm (pins.filter (atTime t)) :=
      (List.mergeSort_perm pins pinLe).filter (atTime t)
    exact (hsub2.eq_of_length hperm.length_eq.symm).symm

/-- C6 (witness): the adjacent-order part instantiated on a concrete
three-pin list with a duplicated time. -/
theorem c6_sort_witness :
    ((sortPins [{ time_ms := 5, talkie_device := none, talkie_message := [1] },
                { time_ms := 3, talkie_device := none, talkie_message := [2] },
                { time_ms := 5, talkie_device := none, talkie_message := [3] }]).get
       ⟨0, Nat.lt_of_succ_lt (by simp [sortPins, List.length_mergeSort])⟩).time_ms
      ≤ ((sortPins [{ time_ms := 5, talkie_device := none, talkie_message := [1] },
                { time_ms := 3, talkie_device := none, talkie_message := [2] },
                { time_ms := 5, talkie_device := none, talkie_message := [3] }]).get
       ⟨1, by simp [sortPins, List.length_mergeSort]⟩).time_ms :=
  c6_sort_sorted_stable.1 _ 0 (by simp [sortPins, List.length_mergeSort])

/-! ### Playing loop and drag accumulation (C7)

`DRAG_DURATION_MS` from the header is `1000.0/((120/60)*24)`; the inner
`(120/60)*24` is C integer arithmetic and equals 48. The real-time loop
is embedded with the measured `pluck_time_us` of each step supplied by
an oracle (the monotonic clock's reading after the sleep), indexed by
the step number; everything the code computes from that measurement is
embedded exactly. -/

def DRAG_DURATION_MS : ℚ := 1000 / (((120 / 60) * 24 : Int) : ℚ)

structure PlayState where
  total_drag : ℚ
  processed : List TalkiePin
deriving DecidableEq

/-- One iteration of the `while (talkieToProcess.size() > 0)` loop:
compute the drag-shifted target in microseconds, read the measured pluck
time, record the delay on the pin, move it to the processed list, and
accumulate drag when the delay exceeds the threshold. -/
def playStep (oracle : Nat → ℚ) (k : Nat) (st : PlayState) (pin : TalkiePin) : PlayState :=
  let next_pin_time_us : ℤ := round ((pin.time_ms + st.total_drag) * 1000)
  let pluck_time_us : ℚ := oracle k
  let delay_time_ms : ℚ := (pluck_time_us - (next_pin_time_us : ℚ)) / 1000
  { total_drag :=
      if delay_time_ms > DRAG_DURATION_MS then st.total_drag + (delay_time_ms - DRAG_DURATION_MS)
      else st.total_drag,
    processed := st.processed ++ [{ pin with delay_time_ms := delay_time_ms }] }

def playLoop (oracle : Nat → ℚ) : Nat → PlayState → List TalkiePin → PlayState
  | _, st, [] => st
  | k, st, pin :: rest => playLoop oracle (k + 1) (playStep oracle k st pin) rest

/-- Player state after the first `k` pins, starting from
`total_drag = 0` and an empty processed list. -/
def playAfter (oracle : Nat → ℚ) (pins : List TalkiePin) (k : Nat) : PlayState :=
  playLoop oracle 0 { total_drag := 0, processed := [] } (pins.take k)

def dragAfter (oracle : Nat → ℚ) (pins : List TalkiePin) (k : Nat) : ℚ :=
  (playAfter oracle pins k).total_drag

/-- Delay recorded for the `k`-th pin: measured pluck time minus the
drag-shifted rounded target, in milliseconds. -/
def recordedDelay (oracle : Nat → ℚ) (pins : List TalkiePin) (k : Nat) : ℚ :=
  (oracle k -
    ((round (((pins.getD k default).time_ms + dragAfter oracle pins k) * 1000) : ℤ) : ℚ)) / 1000

theorem playLoop_append (oracle : Nat → ℚ) (l1 : List TalkiePin) :
    ∀ (l2 : List TalkiePin) (k : Nat) (st : PlayState),
      playLoop oracle k st (l1 ++ l2) =
        playLoop oracle (k + l1.length) (playLoop oracle k st l1) l2 := by
  induction l1 with
  | nil => intro l2 k st; simp [playLoop]
  | cons pin rest ih =>
    intro l2 k st
    rw [List.cons_append, playLoop, playLoop, ih]
    congr 1
    simp only [List.length_cons]
    omega

theorem dragAfter_succ (oracle : Nat → ℚ) (pins : List TalkiePin) (k : Nat)
    (h : k < pins.length) :
    dragAfter oracle pins (k + 1) =
      if recordedDelay oracle pins k > DRAG_DURATION_MS then
        dragAfter oracle pins k + (recordedDelay oracle pins k - DRAG_DURATION_MS)
      else dragAfter oracle pins k := by
  have htake : pins.take (k + 1) = pins.take k ++ [pins.getD k default] := by
    rw [List.take_succ, List.getElem?_eq_getElem h, List.getD_eq_getElem _ _ h]
    rfl
  have hlen : (pins.take k).length = k := List.length_take_of_le (by omega)
  rw [dragAfter, playAfter, htake, playLoop_append, hlen]
  rw [playLoop, playLoop]
  simp only [Nat.zero_add]
  rw [recordedDelay, playStep]
  rfl

/-- C7 (confirmed): after each pin's emission `total_drag` increases by
exactly `delay_ms - DRAG_DURATION_MS` when the recorded delay exceeds
the threshold `1000/((120/60)*24)` and is left unchanged otherwise;
consequently `total_drag` is monotonically non-decreasing over the
whole run. -/
theorem c7_drag_step_monotone :
    (∀ (oracle : Nat → ℚ) (pins : List TalkiePin) (k : Nat), k < pins.length →
      dragAfter oracle pins (k + 1) =
        if recordedDelay oracle pins k > DRAG_DURATION_MS then
          dragAfter oracle pins k + (recordedDelay oracle pins k - DRAG_DURATION_MS)
        else dragAfter oracle pins k)
    ∧ (∀ (oracle : Nat → ℚ) (pins : List TalkiePin) (k : Nat),
        dragAfter oracle pins k ≤ dragAfter oracle pins (k + 1)) := by
  constructor
  · exact fun oracle pins k h => dragAfter_succ oracle pins k h
  · intro oracle pins k
    by_cases h : k < pins.length
    · rw [dragAfter_succ oracle pins k h]
      split
      · rename_i hgt
        have : recordedDelay oracle pins k - DRAG_DURATION_MS > 0 := by linarith
        linarith
      · exact le_refl _
    · rw [dragAfter, dragAfter, playAfter, playAfter,
        List.take_of_length_le (by omega), List.take_of_length_le (by omega)]

/-- C7 (witness): with a single pin at time 0 and a measured pluck time
of 120000 µs the recorded delay is 120 ms, above the threshold, so the
accumulated drag after the step equals `120 - 1000/48`. -/
theorem c7_drag_witness :
    dragAfter (fun _ => 120000) [{ time_ms := 0, talkie_device := none, talkie_message := [1] }] 1 =
      if recordedDelay (fun _ => 120000)
          [{ time_ms := 0, talkie_device := none, talkie_message := [1] }] 0 > DRAG_DURATION_MS then
        dragAfter (fun _ => 120000) [{ time_ms := 0, talkie_device := none, talkie_message := [1] }] 0
          + (recordedDelay (fun _ => 120000)
              [{ time_ms := 0, talkie_device := none, talkie_message := [1] }] 0 - DRAG_DURATION_MS)
      else dragAfter (fun _ => 120000) [{ time_ms := 0, talkie_device := none, talkie_message := [1] }] 0 :=
  c7_drag_step_monotone.1 (fun _ => 120000)
    [{ time_ms := 0, talkie_device := none, talkie_message := [1] }] 0 (by decide)

/-! ### Statistics (C9)

Embedding of the final statistics block of `PlayList`: all fields of
`PlayReporting` start at `0.0`; the first loop accumulates the total and
folds the maximum starting from that initial `0.0`; `minimum_delay` is
then seeded with the maximum and folded with `min` in the second loop.
(The standard-deviation field needs a real square root and is not used
by any claim, so it is left out of the embedded record.) -/

structure PlayReporting where
  total_delay : ℚ
  maximum_delay : ℚ
  minimum_delay : ℚ
  average_delay : ℚ
deriving DecidableEq

def computeStats (delays : List ℚ) : PlayReporting :=
  if delays.length > 0 then
    let total_delay := delays.foldl (fun acc dl => acc + dl) 0
    let maximum_delay := delays.foldl (fun acc dl => max acc dl) 0
    let minimum_delay := delays.foldl (fun acc dl => min acc dl) maximum_delay
    { total_delay := total_delay, maximum_delay := maximum_delay,
      minimum_delay := minimum_delay,
      average_delay := total_delay / (delays.length : ℚ) }
  else
    { total_delay := 0, maximum_delay := 0, minimum_delay := 0, average_delay := 0 }

/-- Mathematical maximum of a list of recorded delays, as the claim
reads it (`maximum_delay = max delay_ms`); `0` on the empty list, which
the claim excludes. -/
def maxOfDelays : List ℚ → ℚ
  | [] => 0
  | d :: rest => rest.foldl max d

/-- C9 (counterexample). For the processed pin list whose single
recorded delay is `-1` ms the report's `maximum_delay` is `0` (the fold
starts at the field's initial `0.0`), not the maximum `-1` of the
recorded values. -/
theorem c9_max_counterexample :
    ¬ (computeStats [(-1 : ℚ)]).maximum_delay = maxOfDelays [(-1 : ℚ)] := by
  norm_num [computeStats, maxOfDelays]

theorem foldl_max_shift (l : List ℚ) (a b : ℚ) :
    l.foldl max (max a b) = max a (l.foldl max b) :=
  List.foldl_assoc

/-- C9 (amended): for every non-empty processed pin list the report's
`maximum_delay` equals the maximum of `0` and the pins' recorded
`delay_ms` values (the fold is seeded with the field's initial `0.0`,
which caps the result from below when every recorded delay is
negative). -/
theorem c9_max_amended (delays : List ℚ) (h : delays ≠ []) :
    (computeStats delays).maximum_delay = max 0 (maxOfDelays delays) := by
  match delays, h with
  | d :: rest, _ =>
    rw [computeStats, if_pos (by simp)]
    show (d :: rest).foldl max 0 = max 0 (maxOfDelays (d :: rest))
    rw [List.foldl_cons, maxOfDelays, foldl_max_shift]

/-- C9 (witness): on the singleton `-1` list the amended statement
evaluates to `0 = max 0 (-1)`. -/
theorem c9_max_witness :
    (computeStats [(-1 : ℚ)]).maximum_delay = max 0 (maxOfDelays [(-1 : ℚ)]) :=
  c9_max_amended [(-1 : ℚ)] (by simp)

/-! ## JSON values and the nlohmann accesses the engine performs

The JSON library itself is an external collaborator; only the access
semantics the engine relies on are embedded. Numbers are `ℚ`
(`double`s and integers alike). The two exception classes the code
distinguishes are `parse_error` (the only one its catch handlers name)
and `type_error` (thrown by every failing access or conversion).
-/

inductive Json where
  | null
  | bool (b : Bool)
  | num (q : ℚ)
  | str (s : String)
  | arr (elems : List Json)
  | obj (fields : List (String × Json))

inductive JErr where
  | parseErr
  | typeErr
deriving DecidableEq

def lookupField : List (String × Json) → String → Option Json
  | [], _ => none
  | e :: rest, key => if key = e.1 then some e.2 else lookupField rest key

/-- Read access `j[key]` on a mutable `nlohmann::json`: on an object it
yields the stored value, or null for an absent key (the library inserts
a null); on null it yields null (the value becomes an object); on any
other type it throws `type_error`. -/
def Json.index : Json → String → Except JErr Json
  | .obj fields, key =>
    .ok (match lookupField fields key with
      | some v => v
      | none => .null)
  | .null, _ => .ok .null
  | _, _ => .error .typeErr

def setFieldList : List (String × Json) → String → Json → List (String × Json)
  | [], key, v => [(key, v)]
  | e :: rest, key, v => if e.1 = key then (key, v) :: rest else e :: setFieldList rest key v

/-- Write access `j[key] = v`: updates or inserts on an object, turns
null into a one-field object, throws `type_error` on anything else. -/
def Json.setField : Json → String → Json → Except JErr Json
  | .obj fields, key, v => .ok (.obj (setFieldList fields key v))
  | .null, key, v => .ok (.obj [(key, v)])
  | _, _, _ => .error .typeErr

/-- Arithmetic conversion (`double`, `int`, `uint8_t` targets): the
library accepts any stored number and booleans, and throws `type_error`
otherwise. -/
def Json.toArith : Json → Except JErr ℚ
  | .num q => .ok q
  | .bool b => .ok (if b then 1 else 0)
  | _ => .error .typeErr

/-- Truncation toward zero of the C `static_cast` from `double` to an
integer type. -/
def ratTrunc (q : ℚ) : Int := if 0 ≤ q then ⌊q⌋ else ⌈q⌉

def Json.contains (j : Json) (key : String) : Bool :=
  match j with
  | .obj fields => (lookupField fields key).isSome
  | _ => false

def Json.isString : Json → Bool
  | .str _ => true
  | _ => false

def Json.isNumber : Json → Bool
  | .num _ => true
  | _ => false

/-- Equality of a JSON value against a string constant, as used by
`jsonFileType != FILE_TYPE`. -/
def Json.eqStr (j : Json) (s : String) : Bool :=
  match j with
  | .str t => t = s
  | _ => false

/-- Range-for over a `nlohmann::json`: elements of an array, the values
of an object, nothing for null, and the value itself for a scalar. -/
def Json.forElems : Json → List Json
  | .arr elems => elems
  | .obj fields => fields.map Prod.snd
  | .null => []
  | j => [j]

/-- Embedding of the file-scope constants of the header. -/
def FILE_TYPE : String := "Json Midi Player"

def FILE_URL : String := "https://github.com/ruiseixasm/JsonMidiPlayer"

/-- Embedding of `message_id`: `static_cast<uint32_t>` of the scheduled
time in milliseconds (truncation; out-of-range doubles are clamped in
this model, a value no claim depends on). -/
def message_id (time_milliseconds : ℚ) : Nat :=
  (ratTrunc time_milliseconds).toNat % 2 ^ 32

/-! ## Ingestion pass of `PlayList`

The canonical encoder `nlohmann::json::dump` belongs to the external
JSON library, so the embedding is parameterised by an encoder
`enc : Json → List Nat`. State split mirrors the variable scopes of the
code: `IngestState` holds what outlives a file iteration (the socket's
name registry, the pin list, the counters, and the tempo messages
already transmitted), `FileState` holds the per-file channel map and
captured tempo. An element is processed all-or-nothing in this model;
the only mutation the code can make before an exception inside one
element (the `bpm_n` assignment when the denominator access then
throws) is never observable, because `bpm_d` stays 0 until a tempo
entry is read completely. -/

structure IngestState where
  devices_by_name : List (String × TalkieDevice)
  toProcess : List TalkiePin
  total_validated : Nat
  total_incorrect : Nat
  sent : List (DevKey × List Nat)

structure FileState where
  devices_by_channel : List (Nat × TalkieDevice)
  bpm_n : Int
  bpm_d : Int

def lookupChannel : List (Nat × TalkieDevice) → Nat → Option TalkieDevice
  | [], _ => none
  | e :: rest, ch => if ch = e.1 then some e.2 else lookupChannel rest ch

/-- Embedding of `TalkieDevice::sendTempo`: two `set` messages carrying
the tempo numerator and denominator, each stamped `i:=0` and a fresh
checksum; an exception (only possible at the first field write, when
the copied message is neither object nor null) is caught inside and
yields no sends. -/
def sendTempoE (enc : Json → List Nat) (message : Json) (bpm_n bpm_d : Int) :
    Except JErr (List (List Nat)) := do
  let j0 ← message.setField "m" (.num 3)
  let j1 ← j0.setField "i" (.num 0)
  let j2 ← j1.setField "n" (.str "bpm_n")
  let j3 ← j2.setField "v" (.num (bpm_n : ℚ))
  let j4 ← j3.setField "c" (.num 0)
  let j5 ← j4.setField "c" (.num (calculate_checksum (enc j4)))
  let k1 ← j5.setField "n" (.str "bpm_d")
  let k2 ← k1.setField "v" (.num (bpm_d : ℚ))
  let k3 ← k2.setField "c" (.num 0)
  let k4 ← k3.setField "c" (.num (calculate_checksum (enc k3)))
  pure [enc j5, enc k4]

def sendTempo (enc : Json → List Nat) (message : Json) (bpm_n bpm_d : Int) :
    List (List Nat) :=
  match sendTempoE enc message bpm_n bpm_d with
  | .ok msgs => msgs
  | .error _ => []

/-- Classification by the stamped message's `t` field (the
`is_string()` / `is_number()` branches of the element loop): look up or
create the device in the matching registry, sending the captured tempo
on a device creation; `none` is the final `else continue` (dropped as
incorrect). -/
def classifyTarget (enc : Json → List Nat) (fileIdx : Nat) (g : IngestState) (fs : FileState)
    (tf msg0 : Json) (target_port : Int) : Option (IngestState × FileState × DevKey) :=
  if tf.isString then
    match tf with
    | .str name =>
      match findByName g.devices_by_name name with
      | some _ => some (g, fs, .byName name)
      | none =>
        let g' := { g with
          devices_by_name := g.devices_by_name ++ [(name, mkTalkieDevice target_port)] }
        if fs.bpm_d ≠ 0 then
          some ({ g' with sent := g'.sent ++
              ((sendTempo enc msg0 fs.bpm_n fs.bpm_d).map (fun m => (.byName name, m))) },
            fs, .byName name)
        else some (g', fs, .byName name)
    | _ => none
  else if tf.isNumber then
    match tf with
    | .num q =>
      let channel : Nat := ((ratTrunc q).emod 256).toNat
      match lookupChannel fs.devices_by_channel channel with
      | some _ => some (g, fs, .byChannel fileIdx channel)
      | none =>
        let fs' := { fs with
          devices_by_channel :=
            fs.devices_by_channel ++ [(channel, mkTalkieDevice target_port)] }
        if fs.bpm_d ≠ 0 then
          some ({ g with sent := g.sent ++
              ((sendTempo enc msg0 fs.bpm_n fs.bpm_d).map
                (fun m => (.byChannel fileIdx channel, m))) },
            fs', .byChannel fileIdx channel)
        else some (g, fs', .byChannel fileIdx channel)
    | _ => none
  else none

/-- Embedding of one iteration of the `for (auto jsonElement :
jsonFileContent)` loop: a timed-message entry stamps `i` and `c`,
classifies by `t` (string name, numeric channel, otherwise dropped as
incorrect), creates the device on a registry miss (sending the captured
tempo to a fresh device), and appends the pin; a tempo entry (only
before any tempo was captured) records the numerator and denominator;
anything else is skipped. `.error` models an exception leaving the
loop. -/
def processElement (enc : Json → List Nat) (delay_ms : Int) (fileIdx : Nat)
    (g : IngestState) (fs : FileState) (e : Json) :
    Except JErr (IngestState × FileState) :=
  if e.contains "port" ∧ e.contains "time_ms" ∧ e.contains "message" then
    match e.index "time_ms" with
    | .error err => .error err
    | .ok tj =>
    match tj.toArith with
    | .error err => .error err
    | .ok tval =>
    let time_milliseconds : ℚ := tval + (delay_ms : ℚ)
    match e.index "port" with
    | .error err => .error err
    | .ok pj =>
    match pj.toArith with
    | .error err => .error err
    | .ok pval =>
    let target_port : Int := ratTrunc pval
    match e.index "message" with
    | .error err => .error err
    | .ok msg0 =>
    match msg0.setField "i" (.num (message_id time_milliseconds)) with
    | .error err => .error err
    | .ok msg1 =>
    match msg1.setField "c" (.num 0) with
    | .error err => .error err
    | .ok msg2 =>
    match msg2.setField "c" (.num (calculate_checksum (enc msg2))) with
    | .error err => .error err
    | .ok msg3 =>
    let g := { g with total_incorrect := g.total_incorrect + 1 }
    match msg3.index "t" with
    | .error err => .error err
    | .ok tf =>
    match classifyTarget enc fileIdx g fs tf msg0 target_port with
    | none => .ok (g, fs)
    | some (g', fs', devKey) =>
      let talkie_message := enc msg3
      .ok ({ g' with
          toProcess := g'.toProcess ++
            [{ time_ms := time_milliseconds, talkie_device := some devKey,
               talkie_message := talkie_message }],
          total_incorrect := g'.total_incorrect - 1,
          total_validated := g'.total_validated + 1 },
        fs')
  else if fs.bpm_d = 0 ∧ e.contains "tempo" then
    match e.index "tempo" with
    | .error err => .error err
    | .ok clock =>
    match clock.index "bpm_numerator" with
    | .error err => .error err
    | .ok bnj =>
    match bnj.toArith with
    | .error err => .error err
    | .ok bn =>
    match clock.index "bpm_denominator" with
    | .error err => .error err
    | .ok bdj =>
    match bdj.toArith with
    | .error err => .error err
    | .ok bd =>
    .ok (g, { fs with bpm_n := ratTrunc bn, bpm_d := ratTrunc bd })
  else
    .ok (g, fs)

/-- The per-file content loop; an exception stops the loop but keeps the
state already built (the mutated variables are in the enclosing
scopes). -/
def processContent (enc : Json → List Nat) (delay_ms : Int) (fileIdx : Nat) :
    IngestState → FileState → List Json → IngestState × FileState × Option JErr
  | g, fs, [] => (g, fs, none)
  | g, fs, e :: rest =>
    match processElement enc delay_ms fileIdx g fs e with
    | .error err => (g, fs, some err)
    | .ok (g', fs') => processContent enc delay_ms fileIdx g' fs' rest

/-- Embedding of one iteration of the files loop: extract `filetype`,
`url`, `content` under a handler that catches only
`nlohmann::json::parse_error` (a `type_error` from these accesses is
NOT caught there), reject files with the wrong type or url, and process
the content (a non-array or empty content is only logged, then iterated
anyway, yielding nothing for null and the values for an object). -/
def processFile (enc : Json → List Nat) (delay_ms : Int) (fileIdx : Nat)
    (g : IngestState) (jsonData : Json) : IngestState × Option JErr :=
  match (do
      let ft ← jsonData.index "filetype"
      let url ← jsonData.index "url"
      let ct ← jsonData.index "content"
      pure (ft, url, ct) : Except JErr (Json × Json × Json)) with
  | .error .parseErr => (g, none)
  | .error e => (g, some e)
  | .ok (ft, url, ct) =>
    if ¬ (ft.eqStr FILE_TYPE = true ∧ url.eqStr FILE_URL = true) then (g, none)
    else
      let r := processContent enc delay_ms fileIdx g
        { devices_by_channel := [], bpm_n := 0, bpm_d := 0 } ct.forElems
      (r.1, r.2.2)

def processFiles (enc : Json → List Nat) (delay_ms : Int) :
    IngestState → Nat → List Json → IngestState × Option JErr
  | g, _, [] => (g, none)
  | g, fileIdx, jd :: rest =>
    match processFile enc delay_ms fileIdx g jd with
    | (g', some err) => (g', some err)
    | (g', none) => processFiles enc delay_ms g' (fileIdx + 1) rest

def emptyIngest : IngestState :=
  { devices_by_name := [], toProcess := [], total_validated := 0,
    total_incorrect := 0, sent := [] }

/-! ## The whole `PlayList` entry point -/

structure PlayOutcome where
  retval : Int
  processed : List TalkiePin
  total_validated : Nat
  total_incorrect : Nat
  total_drag : ℚ
  stats : PlayReporting
  sent : List (DevKey × List Nat)

/-- Outcome of the run when `talkie_socket.initialize()` fails: the
whole playing block is skipped (no ingestion, no pins, no emission), the
zero-initialised report is printed, and the function still falls
through to `return 0`. -/
def socketFailOutcome : PlayOutcome :=
  { retval := 0, processed := [], total_validated := 0, total_incorrect := 0,
    total_drag := 0,
    stats := { total_delay := 0, maximum_delay := 0, minimum_delay := 0, average_delay := 0 },
    sent := [] }

/-- Sort, play and aggregate, from an ingestion state (the branch after
the JSON processing; an empty to-process list short-circuits with the
zero statistics). -/
def finishRun (g : IngestState) (oracle : Nat → ℚ) : PlayOutcome :=
  if g.toProcess.length = 0 then
    { retval := 0, processed := [], total_validated := g.total_validated,
      total_incorrect := g.total_incorrect, total_drag := 0,
      stats := computeStats [], sent := g.sent }
  else
    let sorted := sortPins g.toProcess
    let final := playLoop oracle 0 { total_drag := 0, processed := [] } sorted
    { retval := 0, processed := final.processed,
      total_validated := g.total_validated, total_incorrect := g.total_incorrect,
      total_drag := final.total_drag,
      stats := computeStats (final.processed.map TalkiePin.delay_time_ms),
      sent := g.sent }

/-- Embedding of `PlayList(json_str, delay_ms, verbose)`. `input` is the
outcome of `nlohmann::json::parse(json_str)` (the parser is external);
`socketOk` is whether `talkie_socket.initialize()` succeeds; `oracle`
supplies the measured pluck times of the playing loop. The outer
handler around ingestion catches only `parse_error`; an uncaught
exception (`.error`) escapes `PlayList` and no return value is
produced. -/
def PlayListRun (enc : Json → List Nat) (input : Except JErr Json) (socketOk : Bool)
    (delay_ms : Int) (oracle : Nat → ℚ) : Except JErr PlayOutcome :=
  if socketOk then
    match (match input with
      | .error e => (emptyIngest, some e)
      | .ok files => processFiles enc delay_ms emptyIngest 0 files.forElems) with
    | (g, some JErr.parseErr) => .ok (finishRun g oracle)
    | (_, some JErr.typeErr) => .error .typeErr
    | (g, none) => .ok (finishRun g oracle)
  else
    .ok socketFailOutcome

/-! ## C1: exception propagation out of the ingestion pass -/

/-- Failing input of C1: a well-typed file whose single content entry
carries a non-numeric `time_ms`; converting it throws
`nlohmann::json::type_error`, which neither the per-file
`catch (parse_error)` nor the outer `catch (parse_error)` handles. -/
def c1FailingInput : Json :=
  .arr [ .obj [("filetype", .str "Json Midi Player"),
               ("url", .str "https://github.com/ruiseixasm/JsonMidiPlayer"),
               ("content", .arr [ .obj [("port", .num 5005), ("time_ms", .str "late"),
                                        ("message", .obj [("t", .str "A")])] ])] ]

/-- C1 (code bug). On `c1FailingInput` the JSON access failure on the
entry's `time_ms` is not caught and the exception escapes `PlayList`:
both handlers catch only `nlohmann::json::parse_error`, while the
failing conversions throw `type_error`, so the entry is not skipped,
later entries and files are not processed, and no value is returned. -/
theorem c1_type_error_escapes_playlist :
    PlayListRun (fun _ => []) (.ok c1FailingInput) true 0 (fun _ => 0) =
      .error .typeErr := by
  rfl

/-! ## C2: return value of `PlayList` -/

/-- C2 (counterexample). When socket initialisation fails (the
`talkie_socket.initialize()` guard is false) `PlayList` still falls
through to its single `return 0`: the returned value is 0, not
non-zero, although no pins were emitted. -/
theorem c2_socket_failure_returns_zero :
    PlayListRun (fun _ => []) (.ok (.arr [])) false 0 (fun _ => 0) = .ok socketFailOutcome
    ∧ socketFailOutcome.retval = 0 ∧ socketFailOutcome.processed = [] :=
  ⟨rfl, rfl, rfl⟩

theorem finishRun_retval (g : IngestState) (oracle : Nat → ℚ) :
    (finishRun g oracle).retval = 0 := by
  rw [finishRun]
  split <;> rfl

/-- C2 (amended): whenever `PlayList` returns, it returns 0 — on
success, on an empty ingested play list, and also on unrecoverable
socket-initialisation failure, in which case it aborts before any pin
is emitted (the diagnostic line is printed inside `initialize`); the
only runs without a return value are those where an uncaught
`type_error` escapes. -/
theorem c2_playlist_returns_zero_amended :
    ∀ (enc : Json → List Nat) (input : Except JErr Json) (socketOk : Bool)
      (delay_ms : Int) (oracle : Nat → ℚ) (out : PlayOutcome),
      (PlayListRun enc input socketOk delay_ms oracle = .ok out → out.retval = 0)
      ∧ (socketOk = false →
          PlayListRun enc input socketOk delay_ms oracle = .ok socketFailOutcome) := by
  intro enc input socketOk delay_ms oracle out
  constructor
  · intro h
    rw [PlayListRun.eq_def] at h
    by_cases hs : socketOk = true
    · rw [if_pos hs] at h
      split at h
      · simp only [Except.ok.injEq] at h
        rw [← h]
        exact finishRun_retval _ _
      · exact absurd h (by simp)
      · simp only [Except.ok.injEq] at h
        rw [← h]
        exact finishRun_retval _ _
    · rw [if_neg hs] at h
      simp only [Except.ok.injEq] at h
      rw [← h]
      rfl
  · intro hs
    rw [PlayListRun.eq_def, if_neg (by simp [hs])]

/-- C2 (witness): the amended statement applied to the concrete
socket-failure run of the counterexample. -/
theorem c2_playlist_returns_zero_witness :
    PlayListRun (fun _ => []) (.ok (.arr [])) false 0 (fun _ => 0) = .ok socketFailOutcome :=
  (c2_playlist_returns_zero_amended (fun _ => []) (.ok (.arr [])) false 0 (fun _ => 0)
    socketFailOutcome).2 rfl

/-! ## C10: channel-keyed devices stay unresolved and broadcast -/

theorem classifyTarget_channel_ips (enc : Json → List Nat) (fileIdx : Nat)
    (g : IngestState) (fs : FileState) (tf msg0 : Json) (target_port : Int)
    (g2 : IngestState) (fs2 : FileState) (k : DevKey)
    (h : classifyTarget enc fileIdx g fs tf msg0 target_port = some (g2, fs2, k))
    (hinv : ∀ p ∈ fs.devices_by_channel, p.2.target_ip = "") :
    ∀ p ∈ fs2.devices_by_channel, p.2.target_ip = "" := by
  simp only [classifyTarget] at h
  repeat' split at h
  all_goals try exact Option.noConfusion h
  all_goals (
    simp only [Option.some.injEq, Prod.mk.injEq] at h
    obtain ⟨h1, h2, h3⟩ := h
    subst h2
    intro p hp
    first
      | exact hinv p hp
      | (rcases List.mem_append.mp hp with hmem | hmem
         · exact hinv p hmem
         · simp only [List.mem_singleton] at hmem
           subst hmem
           rfl))

theorem processElement_channel_ips (enc : Json → List Nat) (delay_ms : Int) (fileIdx : Nat)
    (g : IngestState) (fs : FileState) (e : Json) (g' : IngestState) (fs' : FileState)
    (h : processElement enc delay_ms fileIdx g fs e = .ok (g', fs'))
    (hinv : ∀ p ∈ fs.devices_by_channel, p.2.target_ip = "") :
    ∀ p ∈ fs'.devices_by_channel, p.2.target_ip = "" := by
  simp only [processElement] at h
  split at h
  · repeat' split at h
    all_goals try exact Except.noConfusion h
    all_goals (
      simp only [Except.ok.injEq, Prod.mk.injEq] at h
      obtain ⟨h1, h2⟩ := h
      subst h2)
    all_goals
      first
        | exact hinv
        | (rename_i g2 fs2 devKey2 heqc
           exact classifyTarget_channel_ips enc fileIdx _ fs _ _ _ g2 fs2 devKey2 heqc hinv)
  · split at h
    · repeat' split at h
      all_goals try exact Except.noConfusion h
      simp only [Except.ok.injEq, Prod.mk.injEq] at h
      obtain ⟨h1, h2⟩ := h
      subst h2
      exact hinv
    · simp only [Except.ok.injEq, Prod.mk.injEq] at h
      obtain ⟨h1, h2⟩ := h
      subst h2
      exact hinv

theorem processContent_channel_ips (enc : Json → List Nat) (delay_ms : Int) (fileIdx : Nat) :
    ∀ (elems : List Json) (g : IngestState) (fs : FileState),
      (∀ p ∈ fs.devices_by_channel, p.2.target_ip = "") →
      ∀ p ∈ (processContent enc delay_ms fileIdx g fs elems).2.1.devices_by_channel,
        p.2.target_ip = "" := by
  intro elems
  induction elems with
  | nil => intro g fs hinv; exact hinv
  | cons e rest ih =>
    intro g fs hinv
    rw [processContent]
    match hpe : processElement enc delay_ms fileIdx g fs e with
    | .error err => exact hinv
    | .ok (g', fs') =>
      exact ih g' fs' (processElement_channel_ips enc delay_ms fileIdx g fs e g' fs' hpe hinv)

/-- C10 (confirmed): a device created for a numeric channel target is
created with an unresolved (empty) `target_ip` and every channel-keyed
device of the per-file map still has an empty `target_ip` after the
whole content pass — peer discovery (`updateAddresses`) acts on the
socket's name-keyed registry only, and the channel maps are locals of
`PlayList` that nothing rebinds — hence the transmission of a
channel-addressed pin, whose device has an empty `target_ip` and a
non-empty payload, is always a broadcast on the device's port, never a
unicast. -/
theorem c10_channel_broadcast :
    (∀ port, (mkTalkieDevice port).target_ip = "")
    ∧ (∀ (enc : Json → List Nat) (delay_ms : Int) (fileIdx : Nat) (elems : List Json)
        (g : IngestState),
        ∀ p ∈ (processContent enc delay_ms fileIdx g
            { devices_by_channel := [], bpm_n := 0, bpm_d := 0 } elems).2.1.devices_by_channel,
          p.2.target_ip = "")
    ∧ (∀ (dev : TalkieDevice) (msg : List Nat), dev.target_ip = "" → msg ≠ [] →
        sendMessage dev msg = SendAction.broadcast dev.target_port msg) := by
  refine ⟨fun _ => rfl, ?_, ?_⟩
  · intro enc delay_ms fileIdx elems g
    exact processContent_channel_ips enc delay_ms fileIdx elems g _ (by simp)
  · intro dev msg hip hmsg
    rw [sendMessage, if_neg hmsg, if_pos hip]

/-- C10 (witness): instantiating the broadcast-dispatch part on a
freshly created channel device with a one-byte payload, and the
registry part on a singleton content list creating channel device 3. -/
theorem c10_channel_witness :
    sendMessage (mkTalkieDevice 5005) [42] =
      SendAction.broadcast (mkTalkieDevice 5005).target_port [42] :=
  c10_channel_broadcast.2.2 (mkTalkieDevice 5005) [42] rfl (by simp)

end JsonTalkiePlayer
